import Mathlib

/-
Verification of the genetic-algorithm number-partition engine (genetic.py).

The program is shallowly embedded: each Python method becomes a Lean
function over lists; the ambient pseudorandom source becomes an explicit
input (a list or function of draws), and Python-level failures (index
errors, unbounded loops) become Option results driven by fuel.
Bit strings are List Char over the characters '0' and '1', as in the
source, which stores genes as Python strings of those two characters.
-/

set_option linter.unusedVariables false

/-- Model of `abs(sum(gene[0]) - sum(gene[1]))` in `fitnessAssessment`:
the partition-sum difference of one phenotype (pair of integer subsets). -/
def difference (phenotype : List Int × List Int) : Int :=
  |phenotype.1.sum - phenotype.2.sum|

/-- Model of `partition` applied to a single gene: walk the gene and the
instance list in parallel; a '0' bit routes the instance value into the
first subset, a '1' bit into the second, any other character routes it
nowhere (the source has two independent `if` tests). A gene longer than
the instance list would raise IndexError in Python (`self.list[i]`),
modelled as `none`. -/
def partitionGene : List Char → List Int → Option (List Int × List Int)
  | [], _ => some ([], [])
  | _ :: _, [] => none
  | c :: g, v :: vs =>
    (partitionGene g vs).map (fun s =>
      if c = '0' then (v :: s.1, s.2)
      else if c = '1' then (s.1, v :: s.2)
      else (s.1, s.2))

/-- The `sortedDifferences` list of `fitnessAssessment`: the per-phenotype
differences sorted ascending (`sorted(differences)` in the source). -/
def sortedDifferences (population : List (List Int × List Int)) : List Int :=
  (population.map difference).insertionSort (· ≤ ·)

/-- Model of `fitnessAssessment`: map each sorted entry `d` to
`len(sortedDifferences) - 1 - sortedDifferences.index(d)`; in Python
`list.index` returns the index of the FIRST occurrence of the value,
which is what `List.indexOf` computes. The returned list is what the
source appends, in sorted order, to `self.populationFitness`. -/
def fitnessAssessment (population : List (List Int × List Int)) : List Nat :=
  (sortedDifferences population).map
    (fun d => (sortedDifferences population).length - 1 -
      (sortedDifferences population).indexOf d)

/-- Model of `validateGene`. The source reads
`if(gene.count('0') and gene.count('1') != 50): return False` —
by Python truthiness this rejects exactly when the zero-count is nonzero
AND the one-count differs from 50. -/
def validateGene (gene : List Char) : Bool :=
  if gene.count '0' ≠ 0 ∧ gene.count '1' ≠ 50 then false else true

/-- Model of Python `random.randint(lo, hi)` (both bounds inclusive):
the raw stream value `r` is reduced into the range [lo, hi]. -/
def randint (lo hi r : Nat) : Nat := lo + r % (hi - lo + 1)

/-- Model of `childOne = parentOne[0 : crossoverPoint + 1] + parentTwo[crossoverPoint + 1 : 100]`
from `crossover`; a Python slice `l[a : b]` is `(l.drop a).take (b - a)`. -/
def childOne (parentOne parentTwo : List Char) (crossoverPoint : Nat) : List Char :=
  parentOne.take (crossoverPoint + 1) ++
    (parentTwo.drop (crossoverPoint + 1)).take (100 - (crossoverPoint + 1))

/-- Model of `childTwo = parentTwo[0 : crossoverPoint + 1] + parentOne[crossoverPoint + 1 : 100]`
from `crossover`. -/
def childTwo (parentOne parentTwo : List Char) (crossoverPoint : Nat) : List Char :=
  parentTwo.take (crossoverPoint + 1) ++
    (parentOne.drop (crossoverPoint + 1)).take (100 - (crossoverPoint + 1))

/-- Model of Python 2 `round(x, 2)`: round to 2 decimal places, halves
away from zero. -/
def round2 (x : ℚ) : ℚ :=
  if x ≥ 0 then (⌊x * 100 + 1 / 2⌋ : ℚ) / 100
  else -((⌊-x * 100 + 1 / 2⌋ : ℚ) / 100)

/-- The keys of `self.frequency`: `frequencyTable` creates buckets
0..19, and a Python 2 dict over these small integer keys iterates them
in ascending order. -/
def frequencyKeys : List Nat := List.range 20

/-- Model of `totalFitness`: the loop `for key in self.frequency: totalFitness += key`
sums the bucket keys. -/
def totalFitness : Nat := frequencyKeys.sum

/-- Model of `weightedFitness = [float(key) / float(totalFitness) for key in self.frequency]`. -/
def weightedFitness : List ℚ :=
  frequencyKeys.map (fun k => (k : ℚ) / (totalFitness : ℚ))

/-- Model of `probabilities = [round(sum(weightedFitness[:i + 1]) * 100, 2) for i in range(len(weightedFitness))]`. -/
def probabilities : List ℚ :=
  (List.range weightedFitness.length).map
    (fun i => round2 ((weightedFitness.take (i + 1)).sum * 100))

/-- One roulette draw of `selection`: scan the population in order
against the cumulative thresholds and return the first member whose
threshold is ≥ u; if the population is exhausted first, the inner loop
ends without appending (modelled as `none`). Exhausting `probabilities`
while members remain would raise IndexError in Python; no use in this
file reaches that case, and it is also modelled as `none`. -/
def selectScan {α : Type} : List α → List ℚ → ℚ → Option α
  | [], _, _ => none
  | _ :: _, [], _ => none
  | x :: _xs, p :: _ps, u =>
    if u ≤ p then some x else selectScan _xs _ps u

/-- Model of `selection`: one scan per draw, keeping the members found.
The `count` parameter of the source is the number of draws, so here it
is the length of the draw list `us`. -/
def selection {α : Type} (population : List α) (us : List ℚ) : List α :=
  us.filterMap (fun u => selectScan population probabilities u)

/-- A concrete 20-member population standing for the population of the
default run (its size is all that matters to `selection`). -/
def pop20 : List (List Char) := List.replicate 20 ['0']

/-- The bit flip `str(int(not int(chromosome)))` of `mutation`: '0'
becomes '1' and '1' becomes '0' (the program only ever feeds genes of
these two characters). -/
def flipChromosome (c : Char) : Char := if c = '0' then '1' else '0'

/-- Recursive core of `mutation`: walk the gene from bit position `i`
with the per-bit uniform draws `us`; flip a bit when its draw is
strictly below the rate, tallying flipped zeroes (`mutatedZeroes`) and
flipped ones (`mutatedOnes`) separately; return the mutated gene, the
zero tally and the one tally. -/
def mutationAux (mutationRate : ℚ) (us : Nat → ℚ) :
    List Char → Nat → List Char × Nat × Nat
  | [], _ => ([], 0, 0)
  | c :: g, i =>
    let rest := mutationAux mutationRate us g (i + 1)
    if us i < mutationRate then
      (flipChromosome c :: rest.1,
        (if c = '0' then rest.2.1 + 1 else rest.2.1),
        (if c = '0' then rest.2.2 else rest.2.2 + 1))
    else
      (c :: rest.1, rest.2.1, rest.2.2)

/-- Model of `mutation`: keep the mutated gene only when
`mutatedOnes == mutatedZeroes`, otherwise return the original gene
unchanged. -/
def mutation (mutationRate : ℚ) (us : Nat → ℚ) (gene : List Char) : List Char :=
  let m := mutationAux mutationRate us gene 0
  if m.2.2 = m.2.1 then m.1 else gene

/-- The comparison `value < convergence` in `evaluateConvergence`, where
`value` is the whole LIST of stored differences of a bucket and
`convergence` is a number. Python 2 orders values of mismatched types by
their type names, and "int" sorts before "list", so a list is never
less than an int: the comparison is constantly false. -/
def py2ListLtInt (value : List Int) (convergence : Int) : Bool := false

/-- Model of `evaluateConvergence`: iterate the (key, value) pairs of
the frequency table and keep the buckets whose stored-difference list
compares `< convergence` under Python 2 semantics. (The print inside
the branch also references an undefined name `population` and would
raise NameError were the branch ever taken.) -/
def evaluateConvergence (frequency : List (Nat × List Int))
    (convergence : Int) : List (Nat × List Int) :=
  frequency.filter (fun kv => py2ListLtInt kv.2 convergence)

/-- The behaviour claimed for `evaluateConvergence` (stated from the
words of the claim, for comparison with the source model): examine every
stored difference in every bucket and signal each (rank, difference)
pair whose difference is strictly below the threshold. -/
def evaluateConvergenceClaimed (frequency : List (Nat × List Int))
    (convergence : Int) : List (Nat × Int) :=
  frequency.flatMap (fun kv =>
    (kv.2.filter (fun d => d < convergence)).map (fun d => (kv.1, d)))

/-- One run of the inner `while` of `crossover`: with both success flags
false, draw a crossover point with `randint(0, 99)`, try childOne and
then childTwo against `validateGene`, append each accepted child, and
repeat only when both were rejected (the loop exits as soon as either
flag turns true, and both children can be accepted in the same pass).
One stream value is consumed per pass; an exhausted stream is `none`. -/
def breedPair (parentOne parentTwo : List Char) :
    List (List Char) → List Nat → Option (List (List Char) × List Nat)
  | _, [] => none
  | acc, r :: rest =>
    let p := randint 0 99 r
    let c1 := childOne parentOne parentTwo p
    let c2 := childTwo parentOne parentTwo p
    let acc1 := if validateGene c1 then acc ++ [c1] else acc
    let acc2 := if validateGene c2 then acc1 ++ [c2] else acc1
    if validateGene c1 ∨ validateGene c2 then some (acc2, rest)
    else breedPair parentOne parentTwo acc rest

/-- The outer `while len(newGeneration) < 20` loop of `crossover`: when
the new generation is still short of 20, draw two parent indices with
`randint(0, 9)` from `selectedGenes` (an out-of-range index would raise
IndexError, modelled as `none`) and run the inner loop. `fuel` bounds
the number of outer iterations, since the loop in the source has no
attempt bound; exhausted fuel or stream is `none`. -/
def crossoverLoop (selectedGenes : List (List Char)) :
    Nat → List (List Char) → List Nat → Option (List (List Char) × List Nat)
  | 0, _, _ => none
  | fuel + 1, acc, s =>
    if 20 ≤ acc.length then some (acc, s)
    else
      match s with
      | r1 :: r2 :: rest =>
        match selectedGenes[randint 0 9 r1]?, selectedGenes[randint 0 9 r2]? with
        | some p1, some p2 =>
          match breedPair p1 p2 acc rest with
          | some (acc2, rest2) => crossoverLoop selectedGenes fuel acc2 rest2
          | none => none
        | _, _ => none
      | _ => none

/-- Model of `crossover`: run the loop from an empty new generation;
on termination the population is replaced by the result and the
generation counter is incremented. -/
def crossover (selectedGenes : List (List Char)) (fuel : Nat)
    (s : List Nat) (generation : Nat) : Option (List (List Char) × Nat) :=
  (crossoverLoop selectedGenes fuel [] s).map (fun x => (x.1, generation + 1))

/-- The bit string built by each iteration of `generatePopulation`
before shuffling: the source appends '0' until the list reaches size 50
and then '1' until it reaches size 100 — the `length` parameter of the
method is never consulted. -/
def makeGene : List Char := List.replicate 50 '0' ++ List.replicate 50 '1'

/-- Fuel-driven core of the `random.shuffle` model: at each step pick
the element at a drawn index and continue with the list with that
element removed. -/
def shuffleGo : Nat → List Nat → List Char → List Char
  | 0, _, l => l
  | n + 1, rs, l =>
    match l with
    | [] => []
    | c :: cs =>
      let x := (c :: cs).getD (rs.headD 0 % (c :: cs).length) c
      x :: shuffleGo n rs.tail ((c :: cs).erase x)

/-- Model of the Python library function `random.shuffle` (library code, not part of the
repository): it permutes the list in place, the permutation being
driven by the stream of draws. Which permutation arises is irrelevant
to every claim; what matters is that the result is a permutation of the
input, which holds for this model by `shuffleModel_perm`. -/
def shuffleModel (rs : List Nat) (l : List Char) : List Char :=
  shuffleGo l.length rs l

/-- Model of `generatePopulation`: `size` genes, each an independently
shuffled copy of the fixed 50-zeroes-then-50-ones string; `rss i` is
the draw stream for individual `i`, and the `length` parameter is
ignored exactly as in the source. -/
def generatePopulation (rss : Nat → List Nat) (size length : Nat) :
    List (List Char) :=
  (List.range size).map (fun i => shuffleModel (rss i) makeGene)

/-- A balanced gene '1'*50 + '0'*50, used as a concrete crossover parent. -/
def onesThenZeroes : List Char := List.replicate 50 '1' ++ List.replicate 50 '0'

/-- A balanced gene '0'*50 + '1'*50, used as a concrete crossover parent. -/
def zeroesThenOnes : List Char := List.replicate 50 '0' ++ List.replicate 50 '1'

/-- In a duplicate-free list, the first index of the element at position
`i` is `i` itself. -/
theorem indexOf_getElem_of_nodup [DecidableEq α] {l : List α}
    (h : l.Nodup) (i : Nat) (hi : i < l.length) : l.indexOf l[i] = i := by
  have hmem : l[i] ∈ l := List.getElem_mem hi
  have hlt : l.indexOf l[i] < l.length := List.indexOf_lt_length.2 hmem
  have hget : l[l.indexOf l[i]] = l[i] := List.getElem_indexOf hlt
  exact (h.getElem_inj_iff).1 hget

theorem partitionGene_sound (gene : List Char) (inst : List Int)
    (hlen : gene.length = inst.length)
    (hbits : ∀ c ∈ gene, c = '0' ∨ c = '1') :
    ∃ s : List Int × List Int, partitionGene gene inst = some s ∧
      s.1.length + s.2.length = gene.length ∧ (s.1 ++ s.2).Perm inst := by
  induction gene generalizing inst with
  | nil =>
    cases inst with
    | nil => exact ⟨([], []), rfl, rfl, List.Perm.refl _⟩
    | cons v vs => simp at hlen
  | cons c g ih =>
    cases inst with
    | nil => simp at hlen
    | cons v vs =>
      have hlen' : g.length = vs.length := by
        simpa using hlen
      have hbits' : ∀ x ∈ g, x = '0' ∨ x = '1' := fun x hx =>
        hbits x (List.mem_cons_of_mem _ hx)
      obtain ⟨⟨s0, s1⟩, heq, hcount, hperm⟩ := ih vs hlen' hbits'
      simp only at hcount hperm
      rcases hbits c (List.mem_cons_self _ _) with h0 | h1
      · refine ⟨(v :: s0, s1), ?_, ?_, ?_⟩
        · simp [partitionGene, heq, h0]
        · simp only [List.length_cons]; omega
        · exact hperm.cons v
      · refine ⟨(s0, v :: s1), ?_, ?_, ?_⟩
        · have hc : c ≠ '0' := by subst h1; decide
          simp [partitionGene, heq, hc, h1]
        · simp only [List.length_cons]; omega
        · exact List.perm_middle.trans (hperm.cons v)

theorem length_sortedDifferences (population : List (List Int × List Int)) :
    (sortedDifferences population).length = population.length := by
  unfold sortedDifferences
  rw [List.length_insertionSort, List.length_map]

/-- C8: for a genotype of 0/1 bits whose length equals the instance
length, `partition` routes `instance[i]` into subsetZero on bit 0 and
subsetOne on bit 1, the two subset sizes sum to the length, and the two
subsets together are a permutation of the instance values; on the literal
scenario, instance [5, 3, 8, 1] with genotype "0011" gives
subsetZero = [5, 3], subsetOne = [8, 1] and difference |8 - 9| = 1. -/
theorem partition_routes_and_preserves :
    (∀ (gene : List Char) (inst : List Int),
        gene.length = inst.length →
        (∀ c ∈ gene, c = '0' ∨ c = '1') →
        ∃ s : List Int × List Int, partitionGene gene inst = some s ∧
          s.1.length + s.2.length = gene.length ∧ (s.1 ++ s.2).Perm inst) ∧
    partitionGene ['0', '0', '1', '1'] [5, 3, 8, 1] = some ([5, 3], [8, 1]) ∧
    difference ([5, 3], [8, 1]) = 1 :=
  ⟨partitionGene_sound, by decide, by decide⟩

theorem partition_routes_and_preserves_witness :
    ((['0', '0', '1', '1'] : List Char).length = ([5, 3, 8, 1] : List Int).length ∧
      (∀ c ∈ (['0', '0', '1', '1'] : List Char), c = '0' ∨ c = '1')) ∧
    ∃ s : List Int × List Int,
      partitionGene ['0', '0', '1', '1'] [5, 3, 8, 1] = some s ∧
      s.1.length + s.2.length = (['0', '0', '1', '1'] : List Char).length ∧
      (s.1 ++ s.2).Perm [5, 3, 8, 1] :=
  ⟨⟨by decide, by decide⟩,
    partition_routes_and_preserves.1 _ _ (by decide) (by decide)⟩

/-- C1 counterexample: four phenotypes with differences [0, 5, 2, 2].
Sorted ascending they are [0, 2, 2, 5]; `list.index` finds the first
occurrence, so both tied entries get fitness 4 - 1 - 1 = 2 and the
assigned fitness values [3, 2, 2, 0] are NOT a permutation of 0..3,
and the tied individuals receive equal, not different, fitness. -/
theorem fitness_tie_counterexample :
    fitnessAssessment [([0], [0]), ([5], [0]), ([2], [0]), ([0], [2])] =
      [3, 2, 2, 0] ∧
    ¬ (fitnessAssessment
        [([0], [0]), ([5], [0]), ([2], [0]), ([0], [2])]).Perm
      (List.range 4) := by
  constructor
  · decide
  · decide

/-- C1 (amended): the fitness assigned to the sorted slot holding value
`d` is `n - 1 - (first index of d in the sorted differences)`. When the
differences are pairwise distinct this equals `n - 1 - sortedPosition`
and the fitness values form a permutation of 0..n-1; two individuals with
an identical difference always receive the SAME fitness value. -/
theorem fitness_rank_assignment (population : List (List Int × List Int)) :
    ((population.map difference).Nodup →
      (fitnessAssessment population).Perm (List.range population.length)) ∧
    (∀ i j : Nat, ∀ d : Int,
      (sortedDifferences population)[i]? = some d →
      (sortedDifferences population)[j]? = some d →
      (fitnessAssessment population)[i]? = (fitnessAssessment population)[j]?) := by
  constructor
  · intro hnodup
    set s := sortedDifferences population with hs
    have hslen : s.length = population.length := length_sortedDifferences population
    have hsnodup : s.Nodup := by
      have hperm : s.Perm (population.map difference) :=
        List.perm_insertionSort _ _
      exact hperm.nodup_iff.2 hnodup
    have heq : fitnessAssessment population =
        (List.range population.length).reverse := by
      apply List.ext_getElem
      · simp [fitnessAssessment, ← hs, hslen]
      · intro i h1 h2
        have hi : i < s.length := by
          simpa [fitnessAssessment, ← hs] using h1
        have hidx : s.indexOf s[i] = i := indexOf_getElem_of_nodup hsnodup i hi
        simp only [fitnessAssessment, ← hs, List.getElem_map,
          List.getElem_reverse, List.getElem_range, List.length_range]
        rw [hidx, hslen]
    rw [heq]
    exact List.reverse_perm _
  · intro i j d hi hj
    have hmi : (fitnessAssessment population)[i]? =
        ((sortedDifferences population)[i]?).map
          (fun d => (sortedDifferences population).length - 1 -
            (sortedDifferences population).indexOf d) := by
      simp [fitnessAssessment]
    have hmj : (fitnessAssessment population)[j]? =
        ((sortedDifferences population)[j]?).map
          (fun d => (sortedDifferences population).length - 1 -
            (sortedDifferences population).indexOf d) := by
      simp [fitnessAssessment]
    rw [hmi, hmj, hi, hj]

theorem fitness_rank_assignment_witness :
    ((([([0], [0]), ([5], [0]), ([2], [0]), ([1], [0])] :
        List (List Int × List Int)).map difference).Nodup) ∧
    (fitnessAssessment
        [([0], [0]), ([5], [0]), ([2], [0]), ([1], [0])]).Perm
      (List.range 4) :=
  ⟨by decide, (fitness_rank_assignment _).1 (by decide)⟩

/-- C2: the claim fails on the code. The balanced parents
'1'*50 + '0'*50 and '0'*50 + '1'*50 with crossover point 49 produce the
all-ones child '1'*100; `validateGene` accepts it (its test short-circuits
when the zero-count is 0), yet the child has 0 zero-bits and 100
one-bits, violating the 50/50 balance invariant the claim asserts for
every accepted child. -/
theorem validateGene_accepts_unbalanced_child :
    validateGene (List.replicate 50 '1' ++ List.replicate 50 '0') = true ∧
    validateGene (List.replicate 50 '0' ++ List.replicate 50 '1') = true ∧
    childOne (List.replicate 50 '1' ++ List.replicate 50 '0')
        (List.replicate 50 '0' ++ List.replicate 50 '1') 49 =
      List.replicate 100 '1' ∧
    validateGene (List.replicate 100 '1') = true ∧
    (List.replicate 100 '1').count '0' = 0 ∧
    (List.replicate 100 '1').count '1' = 100 := by
  refine ⟨by decide, by decide, by decide, by decide, by decide, by decide⟩

/-- C5 counterexample: the source draws the crossover point with
`random.randint(0, 99)`, whose range is [0, 99], not [0, 98] = [0, length-2]
as the claim states: the raw draw 99 yields crossover point 99. -/
theorem crossover_point_99_possible :
    randint 0 99 99 = 99 ∧ ¬ (randint 0 99 99 ≤ 98) := by
  refine ⟨by decide, by decide⟩

/-- C5 (amended): the crossover point is drawn uniformly from
[0, length-1] = [0, 99]; for parents of length 100, each child is the
exact concatenation of the prefix [0..p] of one parent with the suffix
[p+1..end] of the other, and each child has length exactly 100. -/
theorem crossover_children_concatenation (r : Nat) (p1 p2 : List Char)
    (h1 : p1.length = 100) (h2 : p2.length = 100) :
    randint 0 99 r ≤ 99 ∧
    childOne p1 p2 (randint 0 99 r) =
      p1.take (randint 0 99 r + 1) ++ p2.drop (randint 0 99 r + 1) ∧
    childTwo p1 p2 (randint 0 99 r) =
      p2.take (randint 0 99 r + 1) ++ p1.drop (randint 0 99 r + 1) ∧
    (childOne p1 p2 (randint 0 99 r)).length = 100 ∧
    (childTwo p1 p2 (randint 0 99 r)).length = 100 := by
  set p := randint 0 99 r with hp
  have hle : p ≤ 99 := by
    have : r % 100 < 100 := Nat.mod_lt _ (by omega)
    simp only [hp, randint]
    omega
  have hsuffix1 : (p2.drop (p + 1)).take (100 - (p + 1)) = p2.drop (p + 1) :=
    List.take_of_length_le (by rw [List.length_drop, h2])
  have hsuffix2 : (p1.drop (p + 1)).take (100 - (p + 1)) = p1.drop (p + 1) :=
    List.take_of_length_le (by rw [List.length_drop, h1])
  refine ⟨hle, ?_, ?_, ?_, ?_⟩
  · rw [childOne, hsuffix1]
  · rw [childTwo, hsuffix2]
  · rw [childOne, hsuffix1, List.length_append, List.length_take,
      List.length_drop, h1, h2]
    omega
  · rw [childTwo, hsuffix2, List.length_append, List.length_take,
      List.length_drop, h1, h2]
    omega

theorem crossover_children_concatenation_witness :
    (List.replicate 100 '0').length = 100 ∧
    (childOne (List.replicate 100 '0') (List.replicate 100 '1')
      (randint 0 99 42)).length = 100 :=
  ⟨by decide,
    (crossover_children_concatenation 42 (List.replicate 100 '0')
      (List.replicate 100 '1') (by decide) (by decide)).2.2.2.1⟩

theorem range20 :
    List.range 20 = [0, 1, 2, 3, 4, 5, 6, 7, 8, 9, 10, 11, 12,
      13, 14, 15, 16, 17, 18, 19] := rfl

/-- The concrete cumulative thresholds for the fixed 20-bucket
frequency table of the source. -/
theorem probabilities_eq :
    probabilities = [0, 53/100, 158/100, 316/100, 526/100, 789/100,
      1105/100, 1474/100, 1895/100, 2368/100, 2895/100, 3474/100,
      4105/100, 4789/100, 5526/100, 6316/100, 7158/100, 8053/100,
      90, 100] := by
  simp [probabilities, weightedFitness, frequencyKeys, totalFitness, range20]
  norm_num [round2]

theorem probabilities_length : probabilities.length = 20 := by
  rw [probabilities_eq]
  rfl

theorem probabilities_getElem_19 (h : 19 < probabilities.length) :
    probabilities[19] = 100 := by
  simp [probabilities_eq]

theorem selectScan_isSome_of_le {α : Type} (pop : List α) (probs : List ℚ)
    (u : ℚ) (i : Nat) (h1 : i < pop.length) (h2 : i < probs.length)
    (h3 : u ≤ probs[i]) : (selectScan pop probs u).isSome := by
  induction pop generalizing probs i with
  | nil => simp at h1
  | cons x xs ih =>
    cases probs with
    | nil => simp at h2
    | cons p ps =>
      by_cases hup : u ≤ p
      · simp [selectScan, hup]
      · cases i with
        | zero => exact absurd (by simpa using h3) hup
        | succ n =>
          simpa [selectScan, hup] using
            ih ps n (by simpa using h1) (by simpa using h2) (by simpa using h3)

theorem length_filterMap_of_isSome {α β : Type} (f : α → Option β)
    (l : List α) (h : ∀ a ∈ l, (f a).isSome) :
    (l.filterMap f).length = l.length := by
  induction l with
  | nil => rfl
  | cons a l ih =>
    obtain ⟨b, hb⟩ := Option.isSome_iff_exists.1 (h a (List.mem_cons_self a l))
    rw [List.filterMap_cons, hb]
    simp [ih (fun x hx => h x (List.mem_cons_of_mem a hx))]

/-- With the default 20-bucket table the final cumulative threshold is
exactly 100, so over a population of at least 20 members every draw
u ≤ 100 selects somebody. -/
theorem selectScan_isSome_of_pop20 {α : Type} (population : List α) (u : ℚ)
    (hpop : 20 ≤ population.length) (hu : u ≤ 100) :
    (selectScan population probabilities u).isSome := by
  have h2 : 19 < probabilities.length := by rw [probabilities_length]; omega
  refine selectScan_isSome_of_le population probabilities u 19 (by omega) h2 ?_
  rw [probabilities_getElem_19 h2]
  exact hu

theorem selection_length_of_le100 {α : Type} (population : List α)
    (us : List ℚ) (hpop : 20 ≤ population.length)
    (hus : ∀ u ∈ us, u ≤ 100) :
    (selection population us).length = us.length :=
  length_filterMap_of_isSome _ _ (fun u hu =>
    selectScan_isSome_of_pop20 population u hpop (hus u hu))

/-- C4 counterexample: `selection` over a one-member population with the
single draw u = 50 selects nothing — the only threshold reached during
the scan is probabilities[0] = 0 < 50, the inner loop ends without
appending, and the result has size 0, not count = 1. -/
theorem selection_draw_selects_nothing :
    selection [(['0'] : List Char)] [(50 : ℚ)] = [] ∧
    (selection [(['0'] : List Char)] [(50 : ℚ)]).length ≠ 1 := by
  have h : selectScan [(['0'] : List Char)] probabilities (50 : ℚ) = none := by
    rw [probabilities_eq]
    norm_num [selectScan]
  refine ⟨by simp [selection, h], by simp [selection, h]⟩

/-- C4 (amended): `selection` returns at most `count` members in general
— a draw whose value exceeds every threshold reached before the
population is exhausted appends nothing. When the population has at
least 20 members (as in the default flow), the final cumulative
threshold of the fixed 20-bucket table is exactly 100, so every draw
u ≤ 100 selects the first member whose cumulative threshold is ≥ u and
the result has size exactly `count`. -/
theorem selection_roulette :
    (∀ (population : List (List Char)) (us : List ℚ),
      (selection population us).length ≤ us.length) ∧
    (∀ (population : List (List Char)) (us : List ℚ),
      20 ≤ population.length → (∀ u ∈ us, u ≤ 100) →
      (selection population us).length = us.length ∧
      ∀ u ∈ us, (selectScan population probabilities u).isSome) := by
  constructor
  · intro population us
    exact List.length_filterMap_le _ _
  · intro population us hpop hus
    exact ⟨selection_length_of_le100 population us hpop hus,
      fun u hu => selectScan_isSome_of_pop20 population u hpop (hus u hu)⟩

theorem selection_roulette_witness :
    (selection (List.replicate 3 (['0'] : List Char)) [(200 : ℚ)]).length ≤ 1 ∧
    (selection (List.replicate 20 (['0'] : List Char)) [(0 : ℚ), 50, 100]).length = 3 :=
  ⟨selection_roulette.1 (List.replicate 3 ['0']) [(200 : ℚ)],
    (selection_roulette.2 (List.replicate 20 ['0']) [(0 : ℚ), 50, 100]
      (by simp) (by norm_num [List.forall_mem_cons])).1⟩

/-- C10 counterexample: with the default 20-bucket table, `selection`
over a 20-member population can never return fewer members than draws —
every draw u in [0, 100] is ≤ the final threshold 100 — so the claimed
scenario (an under-full SelectedGenes pool of fewer than 10 members
feeding crossover) cannot occur in the default flow. -/
theorem selection_cannot_underfill :
    ¬ ∃ us : List ℚ, us.length = 10 ∧ (∀ u ∈ us, 0 ≤ u ∧ u ≤ 100) ∧
      (selection pop20 us).length < 10 := by
  rintro ⟨us, hlen, hb, hlt⟩
  have h := selection_length_of_le100 pop20 us (by simp [pop20])
    (fun u hu => (hb u hu).2)
  omega

/-- C10 (amended): crossover reads `selectedGenes[randint(0, 9)]`, so its
parent lookups are in bounds for every draw exactly when the pool has at
least 10 members (for a shorter pool some draw is out of bounds); but in
the default flow `selection(10, population)` over the 20-member
population always returns exactly 10 members, because every draw
u ≤ 100 meets the final cumulative threshold 100, so the out-of-bounds
scenario does not arise. -/
theorem crossover_pool_lookup :
    (∀ (pool : List (List Char)) (r : Nat), 10 ≤ pool.length →
      (pool[randint 0 9 r]?).isSome) ∧
    (∀ pool : List (List Char), pool.length < 10 →
      ∃ r : Nat, pool[randint 0 9 r]? = none) ∧
    (∀ (pool : List (List Char)) (us : List ℚ), 20 ≤ pool.length →
      (∀ u ∈ us, u ≤ 100) → (selection pool us).length = us.length) := by
  refine ⟨?_, ?_, ?_⟩
  · intro pool r h
    have hlt : randint 0 9 r < 10 := by
      have : r % 10 < 10 := Nat.mod_lt _ (by omega)
      simp only [randint]
      omega
    rw [List.getElem?_eq_getElem (show randint 0 9 r < pool.length by omega)]
    rfl
  · intro pool h
    refine ⟨pool.length, ?_⟩
    have heq : randint 0 9 pool.length = pool.length := by
      simp [randint, Nat.mod_eq_of_lt (show pool.length < 10 by omega)]
    rw [heq]
    exact List.getElem?_eq_none (le_refl _)
  · intro pool us hpop hus
    exact selection_length_of_le100 pool us hpop hus

theorem crossover_pool_lookup_witness :
    ((List.replicate 10 (['0'] : List Char))[randint 0 9 23]?).isSome ∧
    (∃ r : Nat, (List.replicate 5 (['0'] : List Char))[randint 0 9 r]? = none) ∧
    (selection (List.replicate 20 (['0'] : List Char)) [(7 : ℚ)]).length = 1 :=
  ⟨crossover_pool_lookup.1 _ 23 (by simp),
    crossover_pool_lookup.2.1 _ (by simp),
    crossover_pool_lookup.2.2 _ _ (by simp) (by norm_num [List.forall_mem_cons])⟩

theorem mutationAux_counts (mutationRate : ℚ) (us : Nat → ℚ)
    (gene : List Char) (hbits : ∀ c ∈ gene, c = '0' ∨ c = '1') (i : Nat) :
    (mutationAux mutationRate us gene i).1.length = gene.length ∧
    (mutationAux mutationRate us gene i).1.count '0' +
        (mutationAux mutationRate us gene i).2.1 =
      gene.count '0' + (mutationAux mutationRate us gene i).2.2 ∧
    (mutationAux mutationRate us gene i).1.count '1' +
        (mutationAux mutationRate us gene i).2.2 =
      gene.count '1' + (mutationAux mutationRate us gene i).2.1 := by
  induction gene generalizing i with
  | nil => simp [mutationAux]
  | cons c g ih =>
    have hbits' : ∀ x ∈ g, x = '0' ∨ x = '1' := fun x hx =>
      hbits x (List.mem_cons_of_mem _ hx)
    obtain ⟨ihl, ih0, ih1⟩ := ih hbits' (i + 1)
    have ne10 : ('1' : Char) ≠ '0' := by decide
    have ne01 : ('0' : Char) ≠ '1' := by decide
    rcases hbits c (List.mem_cons_self _ _) with h0 | h1 <;> subst_vars <;>
      by_cases hu : us i < mutationRate <;>
      refine ⟨?_, ?_, ?_⟩ <;>
      simp [mutationAux, hu, flipChromosome, List.count_cons, beq_iff_eq,
        ne10, ne01, ihl] <;>
      omega

/-- C7: for every 0/1 gene, `mutation` returns either the input
unchanged or a same-length gene in which the zero-to-one flips equal the
one-to-zero flips, so the zero-count and one-count of the output always
equal those of the input; when the tallies are unequal all flips are
discarded and the original gene is returned. -/
theorem mutation_preserves_balance (mutationRate : ℚ) (us : Nat → ℚ)
    (gene : List Char) (hbits : ∀ c ∈ gene, c = '0' ∨ c = '1') :
    (mutation mutationRate us gene).length = gene.length ∧
    (mutation mutationRate us gene).count '0' = gene.count '0' ∧
    (mutation mutationRate us gene).count '1' = gene.count '1' ∧
    ((mutationAux mutationRate us gene 0).2.2 ≠
        (mutationAux mutationRate us gene 0).2.1 →
      mutation mutationRate us gene = gene) := by
  obtain ⟨hl, h0, h1⟩ := mutationAux_counts mutationRate us gene hbits 0
  by_cases heq : (mutationAux mutationRate us gene 0).2.2 =
      (mutationAux mutationRate us gene 0).2.1
  · unfold mutation
    rw [if_pos heq]
    exact ⟨hl, by omega, by omega, fun hne => absurd heq hne⟩
  · unfold mutation
    rw [if_neg heq]
    exact ⟨rfl, rfl, rfl, fun _ => rfl⟩

theorem mutation_preserves_balance_witness :
    (∀ c ∈ (['0', '1'] : List Char), c = '0' ∨ c = '1') ∧
    (mutation 1 (fun _ => 0) ['0', '1']).length = 2 ∧
    (mutation 1 (fun _ => 0) ['0', '1']).count '0' =
      (['0', '1'] : List Char).count '0' :=
  ⟨by decide,
    (mutation_preserves_balance 1 (fun _ => 0) ['0', '1'] (by decide)).1,
    (mutation_preserves_balance 1 (fun _ => 0) ['0', '1'] (by decide)).2.1⟩

/-- C9: the claim fails on the code. On the frequency table {0: [0]}
with threshold 5, the stored difference 0 is strictly below 5 and the
claimed behaviour signals (0, 0); but the source compares the whole
bucket list against the threshold, which in Python 2 is always false
for a list against an int, so `evaluateConvergence` signals nothing —
indeed it signals nothing on every input. -/
theorem evaluateConvergence_signals_nothing :
    evaluateConvergence [(0, [0])] 5 = [] ∧
    evaluateConvergenceClaimed [(0, [0])] 5 = [(0, 0)] ∧
    (∀ (frequency : List (Nat × List Int)) (convergence : Int),
      evaluateConvergence frequency convergence = []) := by
  refine ⟨rfl, by decide, ?_⟩
  intro frequency convergence
  simp [evaluateConvergence, py2ListLtInt]

theorem breedPair_grows (parentOne parentTwo : List Char) (s : List Nat)
    (acc acc2 : List (List Char)) (rest : List Nat)
    (h : breedPair parentOne parentTwo acc s = some (acc2, rest)) :
    acc2.length = acc.length + 1 ∨ acc2.length = acc.length + 2 := by
  induction s generalizing acc with
  | nil => simp [breedPair] at h
  | cons r rs ih =>
    by_cases h1 : validateGene (childOne parentOne parentTwo (randint 0 99 r)) <;>
      by_cases h2 : validateGene (childTwo parentOne parentTwo (randint 0 99 r))
    · simp only [breedPair, h1, h2, if_true, true_or, Option.some.injEq,
        Prod.mk.injEq] at h
      obtain ⟨ha, _⟩ := h
      right
      simp [← ha]
    · simp only [breedPair, h1, h2, if_true, if_false, true_or,
        Option.some.injEq, Prod.mk.injEq] at h
      obtain ⟨ha, _⟩ := h
      left
      simp [← ha]
    · simp only [breedPair, h1, h2, if_true, if_false, or_true,
        Option.some.injEq, Prod.mk.injEq] at h
      obtain ⟨ha, _⟩ := h
      left
      simp [← ha]
    · simp only [breedPair, h1, h2, if_false, or_self] at h
      exact ih acc h

theorem crossoverLoop_bounds (selectedGenes : List (List Char)) (fuel : Nat)
    (acc : List (List Char)) (s : List Nat) (pop : List (List Char))
    (rest : List Nat)
    (h : crossoverLoop selectedGenes fuel acc s = some (pop, rest)) :
    20 ≤ pop.length ∧ pop.length ≤ max acc.length 21 := by
  induction fuel generalizing acc s with
  | zero => simp [crossoverLoop] at h
  | succ n ih =>
    by_cases hlen : 20 ≤ acc.length
    · simp only [crossoverLoop, hlen, if_true, Option.some.injEq,
        Prod.mk.injEq] at h
      obtain ⟨ha, _⟩ := h
      subst ha
      exact ⟨hlen, le_max_left _ _⟩
    · simp only [crossoverLoop, hlen, if_false] at h
      split at h
      · split at h
        · split at h
          · rename_i rest1 x2 x1 p1 p2 hq2 hq1 x acc2 rest2 hb
            have hg := breedPair_grows p1 p2 rest1 acc acc2 rest2 hb
            have hrec := ih acc2 rest2 h
            refine ⟨hrec.1, le_trans hrec.2 ?_⟩
            rcases hg with hg | hg <;>
              simp only [Nat.max_le, le_max_iff] <;> omega
          · exact absurd h (by simp)
        · exact absurd h (by simp)
      · exact absurd h (by simp)

theorem shuffleGo_perm (n : Nat) (rs : List Nat) (l : List Char)
    (h : l.length ≤ n) : (shuffleGo n rs l).Perm l := by
  induction n generalizing rs l with
  | zero => simp [shuffleGo]
  | succ m ih =>
    cases l with
    | nil => simp [shuffleGo]
    | cons c cs =>
      have hpos : 0 < (c :: cs).length := by simp
      have hjlt : rs.headD 0 % (c :: cs).length < (c :: cs).length :=
        Nat.mod_lt _ hpos
      have hmem : (c :: cs).getD (rs.headD 0 % (c :: cs).length) c ∈ c :: cs := by
        rw [List.getD_eq_getElem?_getD, List.getElem?_eq_getElem hjlt]
        exact List.getElem_mem hjlt
      have hlen : ((c :: cs).erase
          ((c :: cs).getD (rs.headD 0 % (c :: cs).length) c)).length ≤ m := by
        have := List.length_erase_add_one hmem
        simp only [List.length_cons] at h this ⊢
        omega
      exact List.Perm.trans ((ih rs.tail _ hlen).cons _)
        (List.perm_cons_erase hmem).symm

theorem shuffleModel_perm (rs : List Nat) (l : List Char) :
    (shuffleModel rs l).Perm l :=
  shuffleGo_perm l.length rs l (le_refl _)

/-- C6: the claim fails on the code. `generatePopulation` produces
`size` genes but IGNORES its `length` parameter: every gene is a
shuffle of 50 zeroes followed by 50 ones, so it always has length 100
with exactly 50 zero-bits and 50 one-bits, regardless of `length` —
in particular `generatePopulation(1, 4)` yields a gene of length 100,
not 4. -/
theorem generatePopulation_ignores_length :
    (∀ (rss : Nat → List Nat) (size length : Nat),
      (generatePopulation rss size length).length = size ∧
      ∀ g ∈ generatePopulation rss size length,
        g.length = 100 ∧ g.count '0' = 50 ∧ g.count '1' = 50) ∧
    (generatePopulation (fun _ => []) 1 4).map (fun g => g.length) = [100] := by
  have hkey : ∀ rs : List Nat, (shuffleModel rs makeGene).length = 100 ∧
      (shuffleModel rs makeGene).count '0' = 50 ∧
      (shuffleModel rs makeGene).count '1' = 50 := by
    intro rs
    have hperm := shuffleModel_perm rs makeGene
    refine ⟨?_, ?_, ?_⟩
    · rw [hperm.length_eq]
      decide
    · rw [hperm.count_eq]
      decide
    · rw [hperm.count_eq]
      decide
  constructor
  · intro rss size length
    constructor
    · simp [generatePopulation]
    · intro g hg
      simp only [generatePopulation, List.mem_map] at hg
      obtain ⟨i, _, hgi⟩ := hg
      rw [← hgi]
      exact hkey (rss i)
  · have h := (hkey []).1
    simp [generatePopulation, List.range_succ, h]

theorem generatePopulation_ignores_length_witness :
    (generatePopulation (fun _ => []) 1 4).length = 1 ∧
    (shuffleModel [] makeGene).length = 100 ∧
    (shuffleModel [] makeGene).count '0' = 50 ∧
    (shuffleModel [] makeGene).count '1' = 50 :=
  ⟨(generatePopulation_ignores_length.1 (fun _ => []) 1 4).1,
    (generatePopulation_ignores_length.1 (fun _ => []) 1 4).2
      (shuffleModel [] makeGene) (by simp [generatePopulation])⟩

/-- C3 counterexample: a concrete terminating run of `crossover` that
produces 21 children, not 20. Nine outer iterations accept two children
each (18); the tenth pairs '1'*50+'0'*50 with '0'*50+'1'*50 at crossover
point 49, so childOne is the all-ones gene — accepted by the defective
`validateGene` — while childTwo, the all-zeroes gene, is rejected (19);
the eleventh iteration accepts two more children, jumping from 19
straight to 21. -/
theorem crossover_produces_21_children :
    (crossover (onesThenZeroes :: zeroesThenOnes ::
        List.replicate 8 onesThenZeroes) 12
      (List.replicate 27 0 ++ [0, 1, 49, 0, 0, 0]) 1).map
        (fun x => x.1.length) = some 21 ∧ (21 : Nat) ≠ 20 := by
  refine ⟨by decide, by decide⟩

/-- C3 (amended): whenever `crossover` terminates, the new Population
holds at least 20 and at most 21 accepted children — the inner pass can
append two children while the generation stands at 19 — and the
GenerationCounter is incremented by exactly one. -/
theorem crossover_size_and_generation (selectedGenes : List (List Char))
    (fuel : Nat) (s : List Nat) (generation : Nat)
    (pop : List (List Char)) (gen2 : Nat)
    (h : crossover selectedGenes fuel s generation = some (pop, gen2)) :
    20 ≤ pop.length ∧ pop.length ≤ 21 ∧ gen2 = generation + 1 := by
  unfold crossover at h
  cases hc : crossoverLoop selectedGenes fuel [] s with
  | none => rw [hc] at h; simp at h
  | some pr =>
    rw [hc] at h
    simp only [Option.map_some', Option.some.injEq, Prod.mk.injEq] at h
    obtain ⟨h1, h2⟩ := h
    have hb := crossoverLoop_bounds selectedGenes fuel [] s pr.1 pr.2
      (by rw [hc])
    have hmax := hb.2
    simp only [List.length_nil] at hmax
    refine ⟨?_, ?_, h2.symm⟩
    · rw [← h1]
      exact hb.1
    · rw [← h1]
      omega

theorem crossover_size_and_generation_witness :
    crossover (List.replicate 10 makeGene) 11 (List.replicate 30 0) 1 =
      some (List.replicate 20 makeGene, 2) ∧
    20 ≤ (List.replicate 20 makeGene).length ∧
    (List.replicate 20 makeGene).length ≤ 21 ∧ 2 = 1 + 1 :=
  ⟨by decide,
    crossover_size_and_generation (List.replicate 10 makeGene) 11
      (List.replicate 30 0) 1 (List.replicate 20 makeGene) 2 (by decide)⟩
